import Mathlib

/-!
Verification of the SmartParkIOT edge node core: the occupancy state engine
(src/v2/edge/services/occupancy.py) and the reliable delivery buffer / sender
(src/v2/edge/services/stats_sender.py).

Modelling conventions:
* Python floats (confidences, timestamps) are embedded as exact rationals `ℚ`;
  all claim-relevant operations on them are order comparisons and field
  arithmetic, which ℚ models exactly.
* Slot states are the Python strings "occupied" / "free" / "unknown".
* The Python dict `self.slots` (insertion ordered, unique keys) is a
  `List SlotState`; key uniqueness appears as a `Nodup` hypothesis where needed.
* Shapely's `Polygon.contains(Point)` is true exactly when the point lies in
  the interior of the polygon (shapely documents that a polygon does not
  contain its own boundary); it is embedded as an exact even-odd ray-crossing
  test that excludes the boundary.
* Network I/O (`requests.post`) is an oracle argument `HttpResult`; each send
  result also records how many HTTP requests were performed.
* The SQLite buffer table is a list of rows kept in insertion (id-ascending)
  order, mirroring `AUTOINCREMENT` ids and `SELECT ... ORDER BY id`.
-/

namespace SmartPark

/-! ## Geometry: shapely point-in-polygon (src/v2/edge/services/occupancy.py uses
`shapely.geometry.Polygon.contains`) -/

abbrev Pt := ℚ × ℚ

/-- `p` lies on the closed segment from `a` to `b`. -/
def onSegment (p a b : Pt) : Bool :=
  decide ((b.1 - a.1) * (p.2 - a.2) = (b.2 - a.2) * (p.1 - a.1)) &&
  decide (min a.1 b.1 ≤ p.1) && decide (p.1 ≤ max a.1 b.1) &&
  decide (min a.2 b.2 ≤ p.2) && decide (p.2 ≤ max a.2 b.2)

/-- The horizontal ray from `p` towards `+x` crosses the edge `a`-`b`
(standard even-odd crossing rule, half-open in `y`). -/
def rayCrosses (p a b : Pt) : Bool :=
  ((decide (a.2 ≤ p.2) && decide (p.2 < b.2)) ||
   (decide (b.2 ≤ p.2) && decide (p.2 < a.2))) &&
  decide (p.1 < a.1 + (p.2 - a.2) * (b.1 - a.1) / (b.2 - a.2))

/-- The edges of a polygon given as its vertex list (closing edge included). -/
def polyEdges (poly : List Pt) : List (Pt × Pt) :=
  poly.zip (poly.drop 1 ++ poly.take 1)

def onBoundary (poly : List Pt) (p : Pt) : Bool :=
  (polyEdges poly).any (fun e => onSegment p e.1 e.2)

def crossingCount (poly : List Pt) (p : Pt) : ℕ :=
  (polyEdges poly).countP (fun e => rayCrosses p e.1 e.2)

/-- Embedding of shapely `polygon.contains(point)`: the point lies strictly in
the interior of the polygon (boundary points are NOT contained). -/
def containsPoint (poly : List Pt) (p : Pt) : Bool :=
  !onBoundary poly p && (crossingCount poly p % 2 == 1)

/-- The containment test in the words of the spec (§4.2 step 1): point-in-polygon
with the boundary treated as INSIDE.  Kept separate from `containsPoint`
(the source behaviour) for the refinement comparison of claim C3. -/
def containsPointSpec (poly : List Pt) (p : Pt) : Bool :=
  onBoundary poly p || (crossingCount poly p % 2 == 1)

/-! ## Occupancy engine data model (occupancy.py) -/

/-- A vehicle detection: only the center point and confidence are consumed. -/
structure Detection where
  center : Pt
  confidence : ℚ
deriving DecidableEq, Inhabited

/-- Per-slot tracking state (`SlotState` dataclass in occupancy.py). -/
structure SlotState where
  slot_id : String
  polygon : List Pt
  current_state : String := "unknown"
  confidence : ℚ := 0
  last_change : ℚ := 0
  pending_state : Option String := none
  pending_since : Option ℚ := none
  dwell_start : ℚ := 0
deriving DecidableEq, Inhabited

/-- Processor configuration (constructor arguments of `OccupancyProcessor`,
plus the loaded `_roi_version`). -/
structure OccConfig where
  debounce_seconds : ℚ
  enter_threshold : ℚ
  exit_threshold : ℚ
  roi_version : String
deriving DecidableEq, Inhabited

/-- A confirmed state-change event (the dict built in `_update_slot_state`). -/
structure StateChangeEvent where
  slot_id : String
  state : String
  previous_state : String
  confidence : ℚ
  ts_utc : String
  dwell_s : ℤ
  roi_version : String
deriving DecidableEq, Inhabited

/-- Python `int()` applied to a rational: truncation toward zero
(`Int.div` is T-division). -/
def pytrunc (q : ℚ) : ℤ :=
  q.num.tdiv (q.den : ℤ)

/-- The hysteresis gate at the top of `_update_slot_state` (occupancy.py
lines 148-154): a Free→Occupied observation below `enter_threshold` is
rewritten back to "free", an Occupied→Free observation below
`exit_threshold` back to "occupied". -/
def applyHysteresis (cfg : OccConfig) (current new_state : String)
    (confidence : ℚ) : String :=
  if current = "free" ∧ new_state = "occupied" then
    if confidence < cfg.enter_threshold then "free" else new_state
  else if current = "occupied" ∧ new_state = "free" then
    if confidence < cfg.exit_threshold then "occupied" else new_state
  else new_state

/-- `OccupancyProcessor._update_slot_state` (occupancy.py lines 138-192):
hysteresis gate, then debounce; returns the updated slot and the optional
confirmed `StateChangeEvent`. -/
def update_slot_state (cfg : OccConfig) (slot : SlotState) (new_state0 : String)
    (confidence : ℚ) (ts : String) (current_time : ℚ) :
    SlotState × Option StateChangeEvent :=
  let new_state := applyHysteresis cfg slot.current_state new_state0 confidence
  if new_state ≠ slot.current_state then
    if slot.pending_state ≠ some new_state then
      ({ slot with
         pending_state := some new_state
         pending_since := some current_time
         confidence := confidence }, none)
    else if cfg.debounce_seconds ≤ current_time - (slot.pending_since.getD 0) then
      ({ slot with
         current_state := new_state
         last_change := current_time
         dwell_start := current_time
         pending_state := none
         pending_since := none },
       some { slot_id := slot.slot_id
              state := new_state
              previous_state := slot.current_state
              confidence := confidence
              ts_utc := ts
              dwell_s := pytrunc (current_time - slot.dwell_start)
              roi_version := cfg.roi_version })
    else (slot, none)
  else
    ({ slot with
       pending_state := none
       pending_since := none
       confidence := confidence }, none)

/-- The containment pass of `process_detections` (occupancy.py lines 109-121)
restricted to one slot: folds over the detections, recording whether any
center is contained and the running maximum confidence of contained
detections (`slot_occupancy[slot_id]`, `slot_confidence[slot_id]`). -/
def observe (poly : List Pt) (dets : List Detection) : Bool × ℚ :=
  dets.foldl
    (fun acc d =>
      if containsPoint poly d.center then (true, max acc.2 d.confidence) else acc)
    (false, 0)

/-- `new_state = "occupied" if is_occupied else "free"` (line 125). -/
def slotObservedState (poly : List Pt) (dets : List Detection) : String :=
  if (observe poly dets).1 then "occupied" else "free"

/-- `confidence = slot_confidence[slot_id] if is_occupied else
1.0 - slot_confidence.get(slot_id, 0)` (line 126). -/
def slotObservedConfidence (poly : List Pt) (dets : List Detection) : ℚ :=
  if (observe poly dets).1 then (observe poly dets).2
  else 1 - (observe poly dets).2

/-- One slot's share of a `process_detections` call. -/
def processSlot (cfg : OccConfig) (dets : List Detection) (ts : String)
    (current_time : ℚ) (slot : SlotState) : SlotState × Option StateChangeEvent :=
  update_slot_state cfg slot (slotObservedState slot.polygon dets)
    (slotObservedConfidence slot.polygon dets) ts current_time

/-- `OccupancyProcessor.process_detections` (occupancy.py lines 89-136):
updates every slot and collects the confirmed events in slot order. -/
def process_detections (cfg : OccConfig) (slots : List SlotState)
    (dets : List Detection) (ts : String) (current_time : ℚ) :
    List SlotState × List StateChangeEvent :=
  let results := slots.map (processSlot cfg dets ts current_time)
  (results.map Prod.fst, results.filterMap Prod.snd)

/-- The lot summary (`OccupancyProcessor.get_summary`, lines 194-207). -/
structure Summary where
  free_count : ℕ
  occupied_count : ℕ
  unknown_count : ℕ
  total_slots : ℕ
  roi_version : String
deriving DecidableEq

def get_summary (cfg : OccConfig) (slots : List SlotState) : Summary :=
  { free_count := slots.countP (fun s => s.current_state == "free")
  , occupied_count := slots.countP (fun s => s.current_state == "occupied")
  , unknown_count := slots.countP (fun s => s.current_state == "unknown")
  , total_slots := slots.length
  , roi_version := cfg.roi_version }

/-! ### Drivers: iterated calls -/

/-- One raw observation handed to `_update_slot_state`. -/
structure UpdateIn where
  new_state : String
  confidence : ℚ
  ts_utc : String
  now : ℚ
deriving DecidableEq, Inhabited

/-- Iterate `_update_slot_state` over a sequence of observations, recording
each call's optional event. -/
def runUpdates (cfg : OccConfig) (slot : SlotState) (ins : List UpdateIn) :
    SlotState × List (Option StateChangeEvent) :=
  match ins with
  | [] => (slot, [])
  | i :: rest =>
    let r := update_slot_state cfg slot i.new_state i.confidence i.ts_utc i.now
    let r2 := runUpdates cfg r.1 rest
    (r2.1, r.2 :: r2.2)

/-- The input of one `process_detections` call. -/
structure FrameCall where
  dets : List Detection
  ts_utc : String
  now : ℚ
deriving DecidableEq, Inhabited

/-- Iterate `process_detections` over a sequence of frames, accumulating all
emitted events. -/
def runFrames (cfg : OccConfig) (slots : List SlotState)
    (calls : List FrameCall) : List SlotState × List StateChangeEvent :=
  match calls with
  | [] => (slots, [])
  | c :: rest =>
    let r := process_detections cfg slots c.dets c.ts_utc c.now
    let r2 := runFrames cfg r.1 rest
    (r2.1, r.2 ++ r2.2)

/-- The trace of a single slot across a sequence of frames. -/
def slotFramesRun (cfg : OccConfig) (s : SlotState) (calls : List FrameCall) :
    SlotState × List StateChangeEvent :=
  match calls with
  | [] => (s, [])
  | c :: rest =>
    let r := processSlot cfg c.dets c.ts_utc c.now s
    let r2 := slotFramesRun cfg r.1 rest
    (r2.1, r.2.toList ++ r2.2)

/-! ## Stats sender & delivery buffer (src/v2/edge/services/stats_sender.py) -/

/-- A persisted buffer payload.  `_buffer_events` stores a JSON encoding of
`{event, model_version}`; a row is `decodable` when `json.loads` succeeds on
it and `undecodable` when it raises `JSONDecodeError` (disk corruption). -/
inductive BufPayload where
  | decodable (event : StateChangeEvent) (model_version : String)
  | undecodable (raw : String)
deriving DecidableEq, Inhabited

/-- One row of the SQLite `event_buffer` table. -/
structure BufRecord where
  id : ℕ
  event_type : String
  payload : BufPayload
  timestamp : String
deriving DecidableEq, Inhabited

/-- `json.loads(payload_str)['event']` in `replay_buffered_events`. -/
def decodePayload : BufPayload → Option StateChangeEvent
  | .decodable e _ => some e
  | .undecodable _ => none

/-- Outcome of one `requests.post` call: a status code, or a raised
`requests.RequestException`. -/
inductive HttpResult where
  | ok (status : ℕ)
  | exn
deriving DecidableEq, Inhabited

/-- The mutable state of a `StatsSender`: the `_stats` counters, the buffer
table rows (in id-ascending insertion order) and the next `AUTOINCREMENT`
id. -/
structure SenderState where
  events_sent : ℕ
  events_failed : ℕ
  events_buffered : ℕ
  events_replayed : ℕ
  summaries_sent : ℕ
  buffer : List BufRecord
  next_id : ℕ
deriving DecidableEq, Inhabited

/-- Result of a send method: updated state, the returned boolean, and how many
HTTP requests were performed during the call. -/
structure SendResult where
  state : SenderState
  ok : Bool
  requests_made : ℕ
deriving DecidableEq, Inhabited

/-- The rows inserted by `_buffer_events` for a batch of events. -/
def bufferRows (next_id : ℕ) (events : List StateChangeEvent)
    (model_version ts : String) : List BufRecord :=
  match events with
  | [] => []
  | e :: rest =>
    { id := next_id
      event_type := "slot_event"
      payload := .decodable e model_version
      timestamp := ts } :: bufferRows (next_id + 1) rest model_version ts

/-- `StatsSender._buffer_events` (stats_sender.py lines 244-264), with the
SQLite insert succeeding: appends one row per event and increments
`events_buffered` by the batch size. -/
def buffer_events (st : SenderState) (events : List StateChangeEvent)
    (model_version ts : String) : SenderState :=
  { st with
    buffer := st.buffer ++ bufferRows st.next_id events model_version ts
    events_buffered := st.events_buffered + events.length
    next_id := st.next_id + events.length }

/-- `StatsSender.send_slot_events` (lines 75-119): empty batches return True
immediately; a 200 response counts the events as sent; any other status or a
transport exception buffers the batch and returns False. -/
def send_slot_events (st : SenderState) (events : List StateChangeEvent)
    (model_version ts : String) (net : HttpResult) : SendResult :=
  if events.isEmpty then ⟨st, true, 0⟩
  else
    match net with
    | .ok status =>
      if status = 200 then
        ⟨{ st with events_sent := st.events_sent + events.length }, true, 1⟩
      else ⟨buffer_events st events model_version ts, false, 1⟩
    | .exn => ⟨buffer_events st events model_version ts, false, 1⟩

/-- `StatsSender.send_summary` (lines 121-158): a 200 response increments
`summaries_sent`; any other outcome just returns False (no buffering). -/
def send_summary (st : SenderState) (net : HttpResult) : SendResult :=
  match net with
  | .ok status =>
    if status = 200 then ⟨{ st with summaries_sent := st.summaries_sent + 1 }, true, 1⟩
    else ⟨st, false, 1⟩
  | .exn => ⟨st, false, 1⟩

/-- `StatsSender.send_health` (lines 160-195): returns whether the status was
200; no counter, no buffering. -/
def send_health (st : SenderState) (net : HttpResult) : SendResult :=
  match net with
  | .ok status => if status = 200 then ⟨st, true, 1⟩ else ⟨st, false, 1⟩
  | .exn => ⟨st, false, 1⟩

/-- `StatsSender.send_processing_log` (lines 197-243): best-effort, returns
`status == 200`, dropped on failure. -/
def send_processing_log (st : SenderState) (net : HttpResult) : SendResult :=
  match net with
  | .ok status => if status = 200 then ⟨st, true, 1⟩ else ⟨st, false, 1⟩
  | .exn => ⟨st, false, 1⟩

/-- Result of `replay_buffered_events`: updated state, the returned count, and
the number of HTTP requests performed. -/
structure ReplayResult where
  state : SenderState
  replayed : ℕ
  requests_made : ℕ
deriving DecidableEq, Inhabited

/-- `StatsSender.replay_buffered_events` (lines 266-343): read up to
`batch_size` oldest rows (`SELECT ... ORDER BY id LIMIT ?`), split them into
decodable events and ids (ids collect every read row, decodable or not); if
any event decoded, attempt one delivery; only on a 200 response delete the
read rows and count them as replayed.  When every read row is undecodable no
request is made and nothing is deleted. -/
def replay_buffered_events (st : SenderState) (batch_size : ℕ)
    (net : HttpResult) : ReplayResult :=
  let rows := st.buffer.take batch_size
  if rows.isEmpty then ⟨st, 0, 0⟩
  else
    let events_to_send := rows.filterMap (fun r => decodePayload r.payload)
    let ids_to_delete := rows.map (fun r => r.id)
    if events_to_send.isEmpty then ⟨st, 0, 0⟩
    else
      if net = HttpResult.ok 200 then
        ⟨{ st with
           buffer := st.buffer.filter (fun r => !(ids_to_delete.contains r.id))
           events_replayed := st.events_replayed + events_to_send.length },
         events_to_send.length, 1⟩
      else ⟨st, 0, 1⟩

/-- `buffer_depth` as computed by `get_stats` (lines 396-412):
`SELECT COUNT(*) FROM event_buffer`. -/
def buffer_depth (st : SenderState) : ℕ :=
  st.buffer.length

/-! ## Buffer bookkeeping lemmas -/

theorem filter_not_contains_append (ids : List ℕ) (A B : List BufRecord)
    (hA : ∀ a ∈ A, a.id ∈ ids) (hB : ∀ b ∈ B, b.id ∉ ids) :
    (A ++ B).filter (fun r => !(ids.contains r.id)) = B := by
  rw [List.filter_append]
  have h1 : A.filter (fun r => !(ids.contains r.id)) = [] := by
    rw [List.filter_eq_nil_iff]
    intro a ha
    simp only [Bool.not_eq_true', Bool.not_eq_false]
    exact List.elem_eq_true_of_mem (hA a ha)
  have h2 : B.filter (fun r => !(ids.contains r.id)) = B := by
    rw [List.filter_eq_self]
    intro b hb
    simp only [Bool.not_eq_true', Bool.not_eq_false, Bool.not_eq_true]
    rw [Bool.eq_false_iff]
    exact fun hc => hB b hb (List.elem_iff.1 hc)
  rw [h1, h2, List.nil_append]

theorem buffer_filter_take_eq_drop (l : List BufRecord) (n : ℕ)
    (hnd : (l.map (fun r => r.id)).Nodup) :
    l.filter (fun r => !(((l.take n).map (fun r => r.id)).contains r.id)) =
      l.drop n := by
  have hsplit : l.take n ++ l.drop n = l := List.take_append_drop n l
  have hmap : ((l.take n).map (fun r => r.id) ++
      (l.drop n).map (fun r => r.id)).Nodup := by
    rw [← List.map_append, hsplit]; exact hnd
  have hdisj := (List.nodup_append.1 hmap).2.2
  have hstep := filter_not_contains_append ((l.take n).map (fun r => r.id))
    (l.take n) (l.drop n)
    (fun a ha => List.mem_map_of_mem _ ha)
    (fun b hb hmem => hdisj hmem (List.mem_map_of_mem _ hb))
  calc l.filter (fun r => !(((l.take n).map (fun r => r.id)).contains r.id))
      = (l.take n ++ l.drop n).filter
          (fun r => !(((l.take n).map (fun r => r.id)).contains r.id)) := by
        rw [hsplit]
    _ = l.drop n := hstep

/-! ## Claim C10 -/

/-- C10 (empty-send no-op): `send_slot_events` with an empty event list returns
True without performing any HTTP request, without touching the buffer, and
without changing any counter — the returned state is exactly the input state
and `requests_made = 0`. -/
theorem send_slot_events_empty_noop (st : SenderState) (model_version ts : String)
    (net : HttpResult) :
    send_slot_events st [] model_version ts net = ⟨st, true, 0⟩ := rfl

/-! ## Claim C7 -/

/-- C7 counterexample: a failed `send_summary` (transport exception) returns
False but does NOT persist anything into the durable buffer and does NOT
increment the buffered counter — the sender state is unchanged, refuting the
claim that every failed unit of work is buffered. -/
theorem send_summary_failure_not_buffered :
    send_summary ⟨0, 0, 0, 0, 0, [], 0⟩ HttpResult.exn =
      ⟨⟨0, 0, 0, 0, 0, [], 0⟩, false, 1⟩ := rfl

/-- C7 (amended): only event batches are durably buffered on failure.  For any
non-200 outcome: a nonempty `send_slot_events` batch is appended to the buffer,
`events_buffered` grows by the batch size, and False is returned; failed
`send_summary`, `send_health` and `send_processing_log` return False with the
state (buffer and all counters) completely unchanged.  No failure propagates
as an exception: every outcome is a returned boolean. -/
theorem send_failure_outcomes (st : SenderState) (events : List StateChangeEvent)
    (model_version ts : String) (net : HttpResult) (hfail : net ≠ .ok 200) :
    (events ≠ [] →
      (send_slot_events st events model_version ts net).ok = false ∧
      (send_slot_events st events model_version ts net).state =
        buffer_events st events model_version ts ∧
      (send_slot_events st events model_version ts net).state.events_buffered =
        st.events_buffered + events.length ∧
      (send_slot_events st events model_version ts net).state.buffer =
        st.buffer ++ bufferRows st.next_id events model_version ts) ∧
    send_summary st net = ⟨st, false, 1⟩ ∧
    send_health st net = ⟨st, false, 1⟩ ∧
    send_processing_log st net = ⟨st, false, 1⟩ := by
  have hbufc : (buffer_events st events model_version ts).events_buffered =
      st.events_buffered + events.length := rfl
  have hbufb : (buffer_events st events model_version ts).buffer =
      st.buffer ++ bufferRows st.next_id events model_version ts := rfl
  cases net with
  | exn =>
    refine ⟨fun hne => ?_, rfl, rfl, rfl⟩
    have hne' : events.isEmpty = false := by
      cases events with
      | nil => exact absurd rfl hne
      | cons e rest => rfl
    exact ⟨by simp [send_slot_events, hne'], by simp [send_slot_events, hne'],
      by simp [send_slot_events, hne', hbufc], by simp [send_slot_events, hne', hbufb]⟩
  | ok status =>
    have hs : status ≠ 200 := fun h => hfail (by rw [h])
    refine ⟨fun hne => ?_, ?_, ?_, ?_⟩
    · have hne' : events.isEmpty = false := by
        cases events with
        | nil => exact absurd rfl hne
        | cons e rest => rfl
      exact ⟨by simp [send_slot_events, hne', hs], by simp [send_slot_events, hne', hs],
        by simp [send_slot_events, hne', hs, hbufc],
        by simp [send_slot_events, hne', hs, hbufb]⟩
    · simp [send_summary, hs]
    · simp [send_health, hs]
    · simp [send_processing_log, hs]

/-- C7 witness: a concrete failed batch send is buffered, a concrete failed
summary send leaves the state untouched. -/
theorem send_failure_outcomes_witness :
    (send_slot_events ⟨0, 0, 0, 0, 0, [], 0⟩
        [⟨"A", "occupied", "free", 1, "t", 0, "v1"⟩] "m" "t" (HttpResult.ok 503)
      ).state.events_buffered = 1 ∧
    send_summary ⟨0, 0, 0, 0, 0, [], 0⟩ (HttpResult.ok 503) =
      ⟨⟨0, 0, 0, 0, 0, [], 0⟩, false, 1⟩ := by
  have h := send_failure_outcomes ⟨0, 0, 0, 0, 0, [], 0⟩
    [⟨"A", "occupied", "free", 1, "t", 0, "v1"⟩] "m" "t" (HttpResult.ok 503)
    (by decide)
  exact ⟨(h.1 (by decide)).2.2.1, h.2.1⟩

/-! ### Reduction lemmas for `replay_buffered_events` -/

theorem replay_reduce_noev (st : SenderState) (batch_size : ℕ) (net : HttpResult)
    (hev : (st.buffer.take batch_size).filterMap
      (fun r => decodePayload r.payload) = []) :
    replay_buffered_events st batch_size net = ⟨st, 0, 0⟩ := by
  by_cases hrows : (st.buffer.take batch_size).isEmpty
  · simp only [replay_buffered_events, hrows, if_pos]
  · simp only [replay_buffered_events, Bool.not_eq_true] at hrows ⊢
    rw [if_neg (by simp [hrows]), if_pos (by simp [hev])]

theorem replay_reduce_fail (st : SenderState) (batch_size : ℕ) (net : HttpResult)
    (hnet : net ≠ HttpResult.ok 200) :
    (replay_buffered_events st batch_size net).state = st ∧
    (replay_buffered_events st batch_size net).replayed = 0 ∧
    (replay_buffered_events st batch_size net).requests_made ≤ 1 := by
  by_cases hev : (st.buffer.take batch_size).filterMap
      (fun r => decodePayload r.payload) = []
  · rw [replay_reduce_noev st batch_size net hev]
    exact ⟨rfl, rfl, Nat.zero_le 1⟩
  · have hrows : ¬ (st.buffer.take batch_size).isEmpty = true := by
      intro h
      rw [List.isEmpty_eq_true] at h
      rw [h] at hev
      exact hev rfl
    have hevb : ¬ ((st.buffer.take batch_size).filterMap
        (fun r => decodePayload r.payload)).isEmpty = true := by
      intro h
      rw [List.isEmpty_eq_true] at h
      exact hev h
    simp only [replay_buffered_events]
    rw [if_neg hrows, if_neg hevb, if_neg hnet]
    exact ⟨rfl, rfl, Nat.le_refl 1⟩

theorem replay_reduce_success (st : SenderState) (batch_size : ℕ)
    (hev : (st.buffer.take batch_size).filterMap
      (fun r => decodePayload r.payload) ≠ []) :
    replay_buffered_events st batch_size (HttpResult.ok 200) =
      ⟨{ st with
         buffer := st.buffer.filter (fun r =>
           !(((st.buffer.take batch_size).map (fun r => r.id)).contains r.id))
         events_replayed := st.events_replayed +
           ((st.buffer.take batch_size).filterMap
             (fun r => decodePayload r.payload)).length },
       ((st.buffer.take batch_size).filterMap
         (fun r => decodePayload r.payload)).length, 1⟩ := by
  have hrows : ¬ (st.buffer.take batch_size).isEmpty = true := by
    intro h
    rw [List.isEmpty_eq_true] at h
    rw [h] at hev
    exact hev rfl
  simp only [replay_buffered_events]
  rw [if_neg hrows, if_neg (by simp [hev])]
  simp

/-! ## Claim C6 -/

/-- C6 (replay atomicity): each `replay_buffered_events` call reads the
`batch_size` oldest buffered rows in ascending id order (the read itself
removes nothing); on any failed delivery (non-200 status or transport
exception) the whole sender state — in particular the buffer depth — is
unchanged; on an HTTP 200 delivery of a batch with at least one decodable
record exactly the read rows are deleted (the buffer becomes its original
tail) and the replayed counter grows by the number of sent events; at most
one HTTP request is made per call. -/
theorem replay_batch_semantics (st : SenderState) (batch_size : ℕ)
    (net : HttpResult)
    (hsorted : List.Sorted (fun a b => a < b)
      (st.buffer.map (fun r => r.id))) :
    List.Sorted (fun a b => a < b)
      ((st.buffer.take batch_size).map (fun r => r.id)) ∧
    (replay_buffered_events st batch_size net).requests_made ≤ 1 ∧
    (net ≠ HttpResult.ok 200 →
      (replay_buffered_events st batch_size net).state = st ∧
      buffer_depth (replay_buffered_events st batch_size net).state =
        buffer_depth st) ∧
    (net = HttpResult.ok 200 →
      ((st.buffer.take batch_size).filterMap
          (fun r => decodePayload r.payload) ≠ [] →
        (replay_buffered_events st batch_size net).state.buffer =
          st.buffer.drop batch_size ∧
        (replay_buffered_events st batch_size net).state.events_replayed =
          st.events_replayed + ((st.buffer.take batch_size).filterMap
            (fun r => decodePayload r.payload)).length ∧
        (replay_buffered_events st batch_size net).replayed =
          ((st.buffer.take batch_size).filterMap
            (fun r => decodePayload r.payload)).length) ∧
      ((st.buffer.take batch_size).filterMap
          (fun r => decodePayload r.payload) = [] →
        (replay_buffered_events st batch_size net).state = st)) := by
  have hnodup : (st.buffer.map (fun r => r.id)).Nodup := hsorted.nodup
  refine ⟨?_, ?_, ?_, ?_⟩
  · rw [List.map_take]
    exact hsorted.sublist (List.take_sublist _ _)
  · by_cases hnet : net = HttpResult.ok 200
    · by_cases hev : (st.buffer.take batch_size).filterMap
          (fun r => decodePayload r.payload) = []
      · rw [hnet, replay_reduce_noev st batch_size _ hev]
        exact Nat.zero_le 1
      · rw [hnet, replay_reduce_success st batch_size hev]
    · exact (replay_reduce_fail st batch_size net hnet).2.2
  · intro hnet
    have h := (replay_reduce_fail st batch_size net hnet).1
    exact ⟨h, by rw [h]⟩
  · intro hnet
    constructor
    · intro hev
      rw [hnet, replay_reduce_success st batch_size hev]
      exact ⟨buffer_filter_take_eq_drop st.buffer batch_size hnodup, rfl, rfl⟩
    · intro hev
      rw [hnet, replay_reduce_noev st batch_size _ hev]

/-- C6 witness: a two-record buffer replayed with `batch_size = 1` against a
200 response loses exactly its oldest record and counts one replayed event. -/
theorem replay_batch_semantics_witness :
    (replay_buffered_events
        ⟨0, 0, 0, 0, 0,
         [⟨0, "slot_event",
            BufPayload.decodable ⟨"A", "occupied", "free", 1, "t", 0, "v1"⟩ "m", "t"⟩,
          ⟨1, "slot_event",
            BufPayload.decodable ⟨"A", "free", "occupied", 1, "u", 5, "v1"⟩ "m", "u"⟩],
         2⟩ 1 (HttpResult.ok 200)).state.buffer =
      [⟨1, "slot_event",
         BufPayload.decodable ⟨"A", "free", "occupied", 1, "u", 5, "v1"⟩ "m", "u"⟩] ∧
    (replay_buffered_events
        ⟨0, 0, 0, 0, 0,
         [⟨0, "slot_event",
            BufPayload.decodable ⟨"A", "occupied", "free", 1, "t", 0, "v1"⟩ "m", "t"⟩,
          ⟨1, "slot_event",
            BufPayload.decodable ⟨"A", "free", "occupied", 1, "u", 5, "v1"⟩ "m", "u"⟩],
         2⟩ 1 (HttpResult.ok 200)).replayed = 1 := by
  have h := replay_batch_semantics
    ⟨0, 0, 0, 0, 0,
     [⟨0, "slot_event",
        BufPayload.decodable ⟨"A", "occupied", "free", 1, "t", 0, "v1"⟩ "m", "t"⟩,
      ⟨1, "slot_event",
        BufPayload.decodable ⟨"A", "free", "occupied", 1, "u", 5, "v1"⟩ "m", "u"⟩],
     2⟩ 1 (HttpResult.ok 200)
    (by simp [List.sorted_cons])
  obtain ⟨h1, h2, h3⟩ := (h.2.2.2 rfl).1 (by with_unfolding_all decide)
  constructor
  · rw [h1]
    with_unfolding_all rfl
  · rw [h3]
    with_unfolding_all rfl

/-! ## Claim C8 -/

/-- C8 counterexample: a buffer whose only (oldest) record is undecodable is
left completely untouched by replay — no request is made and the corrupt
record is retained, to be re-read forever — refuting the claim that an
undecodable record encountered during replay is always removed. -/
theorem replay_all_corrupt_batch_retained :
    replay_buffered_events
        ⟨0, 0, 0, 0, 0,
         [⟨0, "slot_event", BufPayload.undecodable "####", "t"⟩], 1⟩
        50 (HttpResult.ok 200) =
      ⟨⟨0, 0, 0, 0, 0,
        [⟨0, "slot_event", BufPayload.undecodable "####", "t"⟩], 1⟩, 0, 0⟩ := rfl

/-- C8 (amended): an undecodable buffered record read by replay is removed
exactly when its batch also contains at least one decodable record and that
batch's delivery returns HTTP 200; when every read record is undecodable no
request is made and the buffer (corrupt records included) is unchanged, and
when the delivery attempt fails the corrupt records are likewise retained. -/
theorem corrupt_record_removal_conditions (st : SenderState) (batch_size : ℕ)
    (net : HttpResult) :
    (net = HttpResult.ok 200 →
      (st.buffer.take batch_size).filterMap
        (fun r => decodePayload r.payload) ≠ [] →
      ∀ rec ∈ st.buffer.take batch_size, decodePayload rec.payload = none →
        rec ∉ (replay_buffered_events st batch_size net).state.buffer) ∧
    ((st.buffer.take batch_size).filterMap
        (fun r => decodePayload r.payload) = [] →
      (replay_buffered_events st batch_size net).state = st ∧
      (replay_buffered_events st batch_size net).requests_made = 0) ∧
    (net ≠ HttpResult.ok 200 →
      (replay_buffered_events st batch_size net).state = st) := by
  refine ⟨?_, ?_, ?_⟩
  · intro hnet hev rec hrec _ hmem
    rw [hnet, replay_reduce_success st batch_size hev] at hmem
    simp only [List.mem_filter] at hmem
    have hid : rec.id ∈ (st.buffer.take batch_size).map (fun r => r.id) :=
      List.mem_map_of_mem _ hrec
    have := hmem.2
    rw [Bool.not_eq_true', Bool.eq_false_iff] at this
    exact this (List.elem_eq_true_of_mem hid)
  · intro hev
    rw [replay_reduce_noev st batch_size net hev]
    exact ⟨rfl, rfl⟩
  · intro hnet
    exact (replay_reduce_fail st batch_size net hnet).1

/-- C8 witness: in a batch holding one corrupt and one decodable record,
a 200 delivery removes the corrupt record from the buffer. -/
theorem corrupt_record_removal_conditions_witness :
    (⟨0, "slot_event", BufPayload.undecodable "####", "t"⟩ : BufRecord) ∉
      (replay_buffered_events
        ⟨0, 0, 0, 0, 0,
         [⟨0, "slot_event", BufPayload.undecodable "####", "t"⟩,
          ⟨1, "slot_event",
            BufPayload.decodable ⟨"A", "occupied", "free", 1, "t", 0, "v1"⟩ "m", "t"⟩],
         2⟩ 50 (HttpResult.ok 200)).state.buffer := by
  have h := corrupt_record_removal_conditions
    ⟨0, 0, 0, 0, 0,
     [⟨0, "slot_event", BufPayload.undecodable "####", "t"⟩,
      ⟨1, "slot_event",
        BufPayload.decodable ⟨"A", "occupied", "free", 1, "t", 0, "v1"⟩ "m", "t"⟩],
     2⟩ 50 (HttpResult.ok 200)
  exact h.1 rfl (by with_unfolding_all decide)
    ⟨0, "slot_event", BufPayload.undecodable "####", "t"⟩
    (by with_unfolding_all decide) rfl

/-! ## Observation characterization (containment pass of `process_detections`) -/

theorem observe_foldl (poly : List Pt) (dets : List Detection) (b : Bool) (q : ℚ) :
    dets.foldl
      (fun acc d =>
        if containsPoint poly d.center then (true, max acc.2 d.confidence) else acc)
      (b, q) =
      (b || dets.any (fun d => containsPoint poly d.center),
       ((dets.filter (fun d => containsPoint poly d.center)).map
         (fun d => d.confidence)).foldl max q) := by
  induction dets generalizing b q with
  | nil => simp
  | cons d rest ih =>
    by_cases h : containsPoint poly d.center
    · simp only [List.foldl_cons, List.any_cons, List.filter_cons, h, if_pos,
        Bool.true_or, Bool.or_true, List.map_cons]
      rw [ih]
      simp
    · simp only [List.foldl_cons, List.any_cons, List.filter_cons, h, if_neg,
        Bool.false_or, List.map_cons]
      rw [ih]
      simp [h]

theorem observe_fst (poly : List Pt) (dets : List Detection) :
    (observe poly dets).1 = dets.any (fun d => containsPoint poly d.center) := by
  unfold observe
  rw [observe_foldl]
  exact Bool.false_or _

theorem observe_snd (poly : List Pt) (dets : List Detection) :
    (observe poly dets).2 =
      ((dets.filter (fun d => containsPoint poly d.center)).map
        (fun d => d.confidence)).foldl max 0 := by
  unfold observe
  rw [observe_foldl]

theorem observe_snd_of_not_occupied (poly : List Pt) (dets : List Detection)
    (h : (observe poly dets).1 = false) :
    (observe poly dets).2 = 0 := by
  have hany : dets.any (fun d => containsPoint poly d.center) = false := by
    rw [← observe_fst poly dets]
    exact h
  have hfilter : dets.filter (fun d => containsPoint poly d.center) = [] := by
    rw [List.filter_eq_nil_iff]
    rw [List.any_eq_false] at hany
    exact hany
  rw [observe_snd, hfilter]
  rfl

/-! ## Claim C3 -/

/-- C3 counterexample: a detection centered ON the slot polygon's boundary is
inside under the spec's reading (`containsPointSpec`, boundary inclusive) but
shapely's `contains` (embedded as `containsPoint`) excludes it, so the code
observes the slot FREE: at the concrete square slot below the center (2,0)
lies on the bottom edge, observed state is "free", and a full
`process_detections` call starts the unknown slot pending towards "free",
not "occupied". -/
theorem boundary_center_not_observed_occupied :
    containsPointSpec [(0, 0), (4, 0), (4, 4), (0, 4)] (2, 0) = true ∧
    containsPoint [(0, 0), (4, 0), (4, 4), (0, 4)] (2, 0) = false ∧
    (observe [(0, 0), (4, 0), (4, 4), (0, 4)] [⟨(2, 0), mkRat 9 10⟩]).1 = false ∧
    slotObservedState [(0, 0), (4, 0), (4, 4), (0, 4)]
      [⟨(2, 0), mkRat 9 10⟩] = "free" ∧
    (((process_detections ⟨3, mkRat 3 5, mkRat 2 5, "v1"⟩
        [{ slot_id := "A", polygon := [(0, 0), (4, 0), (4, 4), (0, 4)] }]
        [⟨(2, 0), mkRat 9 10⟩] "t" 0).1).getD 0 default).pending_state =
      some "free" := by
  with_unfolding_all decide

/-- C3 (amended): in every `process_detections` call a slot is
observed-occupied exactly when some detection's center lies strictly inside
its polygon — a center on the polygon's boundary counts as OUTSIDE (shapely
`contains` excludes the boundary) — and among the contained detections the
maximum confidence (running `max` against the initial 0) is taken as the
slot's raw confidence. -/
theorem observed_occupancy_characterization (poly : List Pt)
    (dets : List Detection) :
    (observe poly dets).1 = dets.any (fun d => containsPoint poly d.center) ∧
    (observe poly dets).2 =
      ((dets.filter (fun d => containsPoint poly d.center)).map
        (fun d => d.confidence)).foldl max 0 ∧
    slotObservedState poly dets =
      (if dets.any (fun d => containsPoint poly d.center) then "occupied"
       else "free") := by
  refine ⟨observe_fst poly dets, observe_snd poly dets, ?_⟩
  unfold slotObservedState
  rw [observe_fst poly dets]

/-! ## Claim C4 -/

/-- C4 counterexample: a detection evaluated against a free slot but NOT
contained does not make the free confidence `1 - detection.confidence`: at
the concrete input below the detection has confidence 1/2 and is outside the
slot, yet the code assigns confidence 1 (because `slot_confidence` stays 0
for non-contained detections), and 1 ≠ 1 - 1/2. -/
theorem free_confidence_not_complement :
    containsPoint [(0, 0), (4, 0), (4, 4), (0, 4)] (10, 10) = false ∧
    slotObservedConfidence [(0, 0), (4, 0), (4, 4), (0, 4)]
      [⟨(10, 10), mkRat 1 2⟩] = 1 ∧
    (1 : ℚ) ≠ 1 - mkRat 1 2 ∧
    (((process_detections ⟨3, mkRat 3 5, mkRat 2 5, "v1"⟩
        [{ slot_id := "A", polygon := [(0, 0), (4, 0), (4, 4), (0, 4)],
           current_state := "free" }]
        [⟨(10, 10), mkRat 1 2⟩] "t" 0).1).getD 0 default).confidence = 1 := by
  with_unfolding_all decide

/-- C4 (amended): whenever a slot is observed free in a `process_detections`
call its assigned confidence is exactly 1.0 — both when no detection touched
the slot and when detections were evaluated but not contained (the
accumulated contained-confidence is 0 in either case, and the code computes
`1 - 0`). -/
theorem observed_free_confidence_one (poly : List Pt) (dets : List Detection)
    (hfree : (observe poly dets).1 = false) :
    slotObservedConfidence poly dets = 1 := by
  unfold slotObservedConfidence
  simp [hfree, observe_snd_of_not_occupied poly dets hfree]

/-- C4 witness: a concrete non-contained detection next to a free slot yields
free confidence 1. -/
theorem observed_free_confidence_one_witness :
    slotObservedConfidence [(0, 0), (4, 0), (4, 4), (0, 4)]
      [⟨(20, 20), mkRat 1 3⟩] = 1 :=
  observed_free_confidence_one _ _ (by with_unfolding_all decide)

/-! ## Hysteresis and debounce step lemmas -/

theorem applyHysteresis_of_unknown (cfg : OccConfig) (s : String) (c : ℚ) :
    applyHysteresis cfg "unknown" s c = s := by
  simp [applyHysteresis]

theorem applyHysteresis_id (cfg : OccConfig) (S : String) (c : ℚ)
    (hS : S = "occupied" ∨ S = "free") : applyHysteresis cfg S S c = S := by
  rcases hS with h | h <;> subst h <;> simp [applyHysteresis]

/-- Settled step: when the gated observation equals the current state, the
call clears any pending window, records the confidence, and emits nothing. -/
theorem update_settled (cfg : OccConfig) (slot : SlotState) (n : String) (c : ℚ)
    (ts : String) (t : ℚ)
    (heq : applyHysteresis cfg slot.current_state n c = slot.current_state) :
    update_slot_state cfg slot n c ts t =
      ({ slot with
         pending_state := none
         pending_since := none
         confidence := c }, none) := by
  simp only [update_slot_state, heq]
  simp

/-- Pending-start step: a gated observation differing from both the current
state and the pending state (re)starts the debounce window. -/
theorem update_start (cfg : OccConfig) (slot : SlotState) (n : String) (c : ℚ)
    (ts : String) (t : ℚ) (S : String)
    (hgate : applyHysteresis cfg slot.current_state n c = S)
    (hne : S ≠ slot.current_state)
    (hpend : slot.pending_state ≠ some S) :
    update_slot_state cfg slot n c ts t =
      ({ slot with
         pending_state := some S
         pending_since := some t
         confidence := c }, none) := by
  simp only [update_slot_state, hgate]
  rw [if_pos hne, if_pos hpend]

/-- In-window step: the disagreement continues but the debounce window has not
elapsed — nothing at all changes. -/
theorem update_wait (cfg : OccConfig) (slot : SlotState) (n : String) (c : ℚ)
    (ts : String) (t : ℚ) (S : String) (t0 : ℚ)
    (hgate : applyHysteresis cfg slot.current_state n c = S)
    (hne : S ≠ slot.current_state)
    (hpend : slot.pending_state = some S)
    (hsince : slot.pending_since = some t0)
    (hlt : ¬ cfg.debounce_seconds ≤ t - t0) :
    update_slot_state cfg slot n c ts t = (slot, none) := by
  simp only [update_slot_state, hgate, hsince]
  rw [if_pos hne, if_neg (by rw [hpend]; simp), Option.getD_some, if_neg hlt]

/-- Confirm step: the debounce window has elapsed — the transition is
confirmed and exactly one event is emitted. -/
theorem update_confirm (cfg : OccConfig) (slot : SlotState) (n : String) (c : ℚ)
    (ts : String) (t : ℚ) (S : String) (t0 : ℚ)
    (hgate : applyHysteresis cfg slot.current_state n c = S)
    (hne : S ≠ slot.current_state)
    (hpend : slot.pending_state = some S)
    (hsince : slot.pending_since = some t0)
    (hge : cfg.debounce_seconds ≤ t - t0) :
    update_slot_state cfg slot n c ts t =
      ({ slot with
         current_state := S
         last_change := t
         dwell_start := t
         pending_state := none
         pending_since := none },
       some { slot_id := slot.slot_id
              state := S
              previous_state := slot.current_state
              confidence := c
              ts_utc := ts
              dwell_s := pytrunc (t - slot.dwell_start)
              roi_version := cfg.roi_version }) := by
  simp only [update_slot_state, hgate, hsince]
  rw [if_pos hne, if_neg (by rw [hpend]; simp), Option.getD_some, if_pos hge]

theorem update_slot_state_fst_id (cfg : OccConfig) (slot : SlotState)
    (n : String) (c : ℚ) (ts : String) (t : ℚ) :
    (update_slot_state cfg slot n c ts t).1.slot_id = slot.slot_id ∧
    (update_slot_state cfg slot n c ts t).1.polygon = slot.polygon := by
  simp only [update_slot_state]
  split
  · split
    · exact ⟨rfl, rfl⟩
    · split
      · exact ⟨rfl, rfl⟩
      · exact ⟨rfl, rfl⟩
  · exact ⟨rfl, rfl⟩

theorem update_slot_state_event_id (cfg : OccConfig) (slot : SlotState)
    (n : String) (c : ℚ) (ts : String) (t : ℚ) (e : StateChangeEvent)
    (he : (update_slot_state cfg slot n c ts t).2 = some e) :
    e.slot_id = slot.slot_id := by
  simp only [update_slot_state] at he
  split at he
  · split at he
    · exact absurd he (by simp)
    · split at he
      · cases Option.some.inj he
        rfl
      · exact absurd he (by simp)
  · exact absurd he (by simp)

/-! ## Per-slot trace lemmas -/

theorem slotFramesRun_event_id (cfg : OccConfig) (calls : List FrameCall) :
    ∀ (s : SlotState), ∀ e ∈ (slotFramesRun cfg s calls).2,
      e.slot_id = s.slot_id := by
  induction calls with
  | nil =>
    intro s e he
    simp [slotFramesRun] at he
  | cons c rest ih =>
    intro s e he
    simp only [slotFramesRun, List.mem_append] at he
    rcases he with he | he
    · rw [Option.mem_toList, Option.mem_def] at he
      exact update_slot_state_event_id cfg s _ _ _ _ e he
    · have hid := (update_slot_state_fst_id cfg s
        (slotObservedState s.polygon c.dets)
        (slotObservedConfidence s.polygon c.dets) c.ts_utc c.now).1
      exact (ih (processSlot cfg c.dets c.ts_utc c.now s).1 e he).trans hid

/-- A free slot whose contained-detection confidence stays under
`enter_threshold` never changes state and never emits an event. -/
theorem slotFramesRun_free (cfg : OccConfig) (calls : List FrameCall) :
    ∀ s : SlotState, s.current_state = "free" →
      (∀ c ∈ calls, (observe s.polygon c.dets).2 < cfg.enter_threshold) →
      (slotFramesRun cfg s calls).1.current_state = "free" ∧
      (slotFramesRun cfg s calls).2 = [] := by
  induction calls with
  | nil =>
    intro s hs _
    exact ⟨hs, rfl⟩
  | cons c rest ih =>
    intro s hs hconf
    have hgate : applyHysteresis cfg s.current_state
        (slotObservedState s.polygon c.dets)
        (slotObservedConfidence s.polygon c.dets) = s.current_state := by
      rw [hs]
      by_cases hobs : (observe s.polygon c.dets).1
      · rw [slotObservedState, if_pos hobs, slotObservedConfidence, if_pos hobs]
        unfold applyHysteresis
        rw [if_pos ⟨rfl, rfl⟩, if_pos (hconf c (List.mem_cons_self c rest))]
      · rw [slotObservedState, if_neg hobs]
        simp [applyHysteresis]
    have hstep : processSlot cfg c.dets c.ts_utc c.now s =
        ({ s with
           pending_state := none
           pending_since := none
           confidence := slotObservedConfidence s.polygon c.dets }, none) := by
      unfold processSlot
      exact update_settled cfg s _ _ c.ts_utc c.now hgate
    have ihres := ih
      ({ s with
         pending_state := none
         pending_since := none
         confidence := slotObservedConfidence s.polygon c.dets })
      hs (fun c' hc' => hconf c' (List.mem_cons_of_mem c hc'))
    simp only [slotFramesRun, hstep]
    exact ⟨ihres.1, by simp [ihres.2]⟩

/-! ## Decomposition of `process_detections` into per-slot traces -/

theorem process_detections_fst (cfg : OccConfig) (slots : List SlotState)
    (dets : List Detection) (ts : String) (t : ℚ) :
    (process_detections cfg slots dets ts t).1 =
      slots.map (fun s => (processSlot cfg dets ts t s).1) := by
  simp only [process_detections]
  rw [List.map_map]
  rfl

theorem runFrames_fst (cfg : OccConfig) (calls : List FrameCall) :
    ∀ slots : List SlotState,
      (runFrames cfg slots calls).1 =
        slots.map (fun s => (slotFramesRun cfg s calls).1) := by
  induction calls with
  | nil =>
    intro slots
    simp [runFrames, slotFramesRun]
  | cons c rest ih =>
    intro slots
    simp only [runFrames, slotFramesRun]
    rw [process_detections_fst, ih, List.map_map]
    rfl

theorem runFrames_events_mem (cfg : OccConfig) (calls : List FrameCall) :
    ∀ (slots : List SlotState) (e : StateChangeEvent),
      e ∈ (runFrames cfg slots calls).2 →
      ∃ s, s ∈ slots ∧ e ∈ (slotFramesRun cfg s calls).2 := by
  induction calls with
  | nil =>
    intro slots e he
    simp [runFrames] at he
  | cons c rest ih =>
    intro slots e he
    simp only [runFrames, List.mem_append] at he
    rcases he with he | he
    · simp only [process_detections] at he
      rw [List.filterMap_map] at he
      obtain ⟨s, hs, hsome⟩ := List.mem_filterMap.1 he
      refine ⟨s, hs, ?_⟩
      simp only [slotFramesRun, List.mem_append]
      left
      rw [Option.mem_toList, Option.mem_def]
      exact hsome
    · obtain ⟨s', hs', he'⟩ := ih _ e he
      rw [process_detections_fst] at hs'
      obtain ⟨s, hs, rfl⟩ := List.mem_map.1 hs'
      refine ⟨s, hs, ?_⟩
      simp only [slotFramesRun, List.mem_append]
      right
      exact he'

/-! ## Claim C2 -/

/-- C2 (hysteresis): a slot whose current state is "free" stays "free" forever
— and never has an "occupied" event emitted under its slot id — as long as in
every `process_detections` call the maximum confidence among detections
contained in the slot (the accumulated `slot_confidence`) stays strictly
below `enter_threshold`; the under-threshold observation is gated back to
"free". -/
theorem hysteresis_free_slot_stays_free (cfg : OccConfig)
    (slots : List SlotState) (calls : List FrameCall) (k : ℕ)
    (hk : k < slots.length)
    (hnodup : (slots.map (fun s => s.slot_id)).Nodup)
    (hfree : slots[k].current_state = "free")
    (hconf : ∀ c ∈ calls,
      (observe slots[k].polygon c.dets).2 < cfg.enter_threshold) :
    ((runFrames cfg slots calls).1.getD k default).current_state = "free" ∧
    ∀ e ∈ (runFrames cfg slots calls).2,
      e.slot_id = slots[k].slot_id → e.state ≠ "occupied" := by
  have hrun := slotFramesRun_free cfg calls slots[k] hfree hconf
  constructor
  · rw [runFrames_fst]
    have hmap : ((slots.map
        (fun s => (slotFramesRun cfg s calls).1)).getD k default) =
        (slotFramesRun cfg slots[k] calls).1 := by
      rw [List.getD_eq_getElem?_getD, List.getElem?_map,
        List.getElem?_eq_getElem hk]
      rfl
    rw [hmap]
    exact hrun.1
  · intro e he hid
    obtain ⟨s, hs, he'⟩ := runFrames_events_mem cfg calls slots e he
    have hsid : e.slot_id = s.slot_id := slotFramesRun_event_id cfg calls s e he'
    have hseq : s = slots[k] := by
      have hmem : slots[k] ∈ slots := List.getElem_mem hk
      exact List.inj_on_of_nodup_map hnodup hs hmem (by rw [← hsid, hid])
    rw [hseq, hrun.2] at he'
    exact absurd he' (List.not_mem_nil e)

/-- C2 witness: a concrete free square slot with a sustained contained
detection at confidence 1/2 against `enter_threshold` 3/5 stays free. -/
theorem hysteresis_free_slot_stays_free_witness :
    ((runFrames ⟨3, mkRat 3 5, mkRat 2 5, "v1"⟩
        [{ slot_id := "A", polygon := [(0, 0), (4, 0), (4, 4), (0, 4)],
           current_state := "free" }]
        [⟨[⟨(2, 2), mkRat 1 2⟩], "t0", 0⟩,
         ⟨[⟨(2, 2), mkRat 1 2⟩], "t1", 10⟩]).1.getD 0 default).current_state =
      "free" :=
  (hysteresis_free_slot_stays_free ⟨3, mkRat 3 5, mkRat 2 5, "v1"⟩
    [{ slot_id := "A", polygon := [(0, 0), (4, 0), (4, 4), (0, 4)],
       current_state := "free" }]
    [⟨[⟨(2, 2), mkRat 1 2⟩], "t0", 0⟩, ⟨[⟨(2, 2), mkRat 1 2⟩], "t1", 10⟩]
    0 (by decide) (by decide) (by with_unfolding_all decide)
    (by with_unfolding_all decide)).1

/-! ## Claim C9: state trichotomy and the summary partition -/

/-- The three legal values of `current_state`. -/
def validState (s : String) : Prop :=
  s = "free" ∨ s = "occupied" ∨ s = "unknown"

theorem update_slot_state_current (cfg : OccConfig) (slot : SlotState)
    (n : String) (c : ℚ) (ts : String) (t : ℚ) :
    (update_slot_state cfg slot n c ts t).1.current_state = slot.current_state ∨
    (update_slot_state cfg slot n c ts t).1.current_state =
      applyHysteresis cfg slot.current_state n c := by
  simp only [update_slot_state]
  split
  · split
    · exact Or.inl rfl
    · split
      · exact Or.inr rfl
      · exact Or.inl rfl
  · exact Or.inl rfl

theorem applyHysteresis_cases (cfg : OccConfig) (cur n : String) (c : ℚ) :
    applyHysteresis cfg cur n c = n ∨ applyHysteresis cfg cur n c = "free" ∨
      applyHysteresis cfg cur n c = "occupied" := by
  unfold applyHysteresis
  split
  · split
    · exact Or.inr (Or.inl rfl)
    · exact Or.inl rfl
  · split
    · split
      · exact Or.inr (Or.inr rfl)
      · exact Or.inl rfl
    · exact Or.inl rfl

theorem processSlot_valid (cfg : OccConfig) (dets : List Detection)
    (ts : String) (t : ℚ) (slot : SlotState)
    (h : validState slot.current_state) :
    validState (processSlot cfg dets ts t slot).1.current_state := by
  unfold processSlot
  rcases update_slot_state_current cfg slot (slotObservedState slot.polygon dets)
    (slotObservedConfidence slot.polygon dets) ts t with hc | hc
  · rw [hc]
    exact h
  · rw [hc]
    rcases applyHysteresis_cases cfg slot.current_state
      (slotObservedState slot.polygon dets)
      (slotObservedConfidence slot.polygon dets) with hg | hg | hg
    · rw [hg]
      unfold slotObservedState
      by_cases hobs : (observe slot.polygon dets).1
      · rw [if_pos hobs]
        exact Or.inr (Or.inl rfl)
      · rw [if_neg hobs]
        exact Or.inl rfl
    · rw [hg]
      exact Or.inl rfl
    · rw [hg]
      exact Or.inr (Or.inl rfl)

theorem runFrames_valid (cfg : OccConfig) (calls : List FrameCall) :
    ∀ slots : List SlotState,
      (∀ s ∈ slots, validState s.current_state) →
      ∀ s ∈ (runFrames cfg slots calls).1, validState s.current_state := by
  induction calls with
  | nil =>
    intro slots h s hs
    exact h s hs
  | cons c rest ih =>
    intro slots h s hs
    simp only [runFrames] at hs
    refine ih _ ?_ s hs
    intro x hx
    rw [process_detections_fst] at hx
    obtain ⟨s0, hs0, rfl⟩ := List.mem_map.1 hx
    exact processSlot_valid cfg c.dets c.ts_utc c.now s0 (h s0 hs0)

theorem countP_states_partition :
    ∀ l : List SlotState, (∀ s ∈ l, validState s.current_state) →
      l.countP (fun s => s.current_state == "free") +
      l.countP (fun s => s.current_state == "occupied") +
      l.countP (fun s => s.current_state == "unknown") = l.length := by
  intro l
  induction l with
  | nil =>
    intro
    rfl
  | cons s rest ih =>
    intro h
    have hs := h s (List.mem_cons_self s rest)
    have hr := ih (fun x hx => h x (List.mem_cons_of_mem s hx))
    rcases hs with hc | hc | hc <;>
      simp [List.countP_cons, hc, List.length_cons] <;> omega

/-- C9 (count invariant): starting from a freshly loaded slot map (every
slot's state "unknown"), after any sequence of `process_detections` calls the
summary satisfies `free_count + occupied_count + unknown_count = total_slots`:
every slot's state stays one of "free"/"occupied"/"unknown" and each slot is
counted once. -/
theorem summary_counts_partition (cfg : OccConfig) (slots : List SlotState)
    (calls : List FrameCall)
    (hinit : ∀ s ∈ slots, s.current_state = "unknown") :
    (get_summary cfg (runFrames cfg slots calls).1).free_count +
      (get_summary cfg (runFrames cfg slots calls).1).occupied_count +
      (get_summary cfg (runFrames cfg slots calls).1).unknown_count =
      (get_summary cfg (runFrames cfg slots calls).1).total_slots := by
  have hvalid := runFrames_valid cfg calls slots
    (fun s hs => Or.inr (Or.inr (hinit s hs)))
  exact countP_states_partition _ hvalid

/-- C9 witness: one unknown square slot processed through two concrete frames
still satisfies the partition equation. -/
theorem summary_counts_partition_witness :
    (get_summary ⟨3, mkRat 3 5, mkRat 2 5, "v1"⟩
        (runFrames ⟨3, mkRat 3 5, mkRat 2 5, "v1"⟩
          [{ slot_id := "A", polygon := [(0, 0), (4, 0), (4, 4), (0, 4)] }]
          [⟨[⟨(2, 2), mkRat 9 10⟩], "t0", 0⟩,
           ⟨[⟨(2, 2), mkRat 9 10⟩], "t1", 5⟩]).1).free_count +
      (get_summary ⟨3, mkRat 3 5, mkRat 2 5, "v1"⟩
        (runFrames ⟨3, mkRat 3 5, mkRat 2 5, "v1"⟩
          [{ slot_id := "A", polygon := [(0, 0), (4, 0), (4, 4), (0, 4)] }]
          [⟨[⟨(2, 2), mkRat 9 10⟩], "t0", 0⟩,
           ⟨[⟨(2, 2), mkRat 9 10⟩], "t1", 5⟩]).1).occupied_count +
      (get_summary ⟨3, mkRat 3 5, mkRat 2 5, "v1"⟩
        (runFrames ⟨3, mkRat 3 5, mkRat 2 5, "v1"⟩
          [{ slot_id := "A", polygon := [(0, 0), (4, 0), (4, 4), (0, 4)] }]
          [⟨[⟨(2, 2), mkRat 9 10⟩], "t0", 0⟩,
           ⟨[⟨(2, 2), mkRat 9 10⟩], "t1", 5⟩]).1).unknown_count =
      (get_summary ⟨3, mkRat 3 5, mkRat 2 5, "v1"⟩
        (runFrames ⟨3, mkRat 3 5, mkRat 2 5, "v1"⟩
          [{ slot_id := "A", polygon := [(0, 0), (4, 0), (4, 4), (0, 4)] }]
          [⟨[⟨(2, 2), mkRat 9 10⟩], "t0", 0⟩,
           ⟨[⟨(2, 2), mkRat 9 10⟩], "t1", 5⟩]).1).total_slots :=
  summary_counts_partition ⟨3, mkRat 3 5, mkRat 2 5, "v1"⟩
    [{ slot_id := "A", polygon := [(0, 0), (4, 0), (4, 4), (0, 4)] }]
    [⟨[⟨(2, 2), mkRat 9 10⟩], "t0", 0⟩, ⟨[⟨(2, 2), mkRat 9 10⟩], "t1", 5⟩]
    (by decide)

/-! ## Debounce trace machinery (claims C1 and C5) -/

/-- The event `_update_slot_state` emits when the debounce window for pending
state `S` elapses at call `i`, before the slot record is mutated. -/
def confirmEvent (cfg : OccConfig) (slot : SlotState) (S : String)
    (i : UpdateIn) : StateChangeEvent :=
  { slot_id := slot.slot_id
    state := S
    previous_state := slot.current_state
    confidence := i.confidence
    ts_utc := i.ts_utc
    dwell_s := pytrunc (i.now - slot.dwell_start)
    roi_version := cfg.roi_version }

theorem getD_replicate_none (n k : ℕ) :
    (List.replicate n (none : Option StateChangeEvent)).getD k none = none := by
  induction n generalizing k with
  | zero => cases k <;> rfl
  | succ m ih =>
    cases k with
    | zero => rfl
    | succ k2 => exact ih k2

theorem runUpdates_cons (cfg : OccConfig) (slot : SlotState) (i : UpdateIn)
    (rest : List UpdateIn) :
    runUpdates cfg slot (i :: rest) =
      ((runUpdates cfg
          (update_slot_state cfg slot i.new_state i.confidence i.ts_utc i.now).1
          rest).1,
       (update_slot_state cfg slot i.new_state i.confidence i.ts_utc i.now).2 ::
         (runUpdates cfg
           (update_slot_state cfg slot i.new_state i.confidence i.ts_utc i.now).1
           rest).2) := rfl

/-- Once the slot's state equals the continuously observed state `S`, every
further call settles: no events, state unchanged. -/
theorem runUpdates_settled (cfg : OccConfig) (S : String)
    (hS : S = "occupied" ∨ S = "free") :
    ∀ ins : List UpdateIn, (∀ i ∈ ins, i.new_state = S) →
      ∀ slot : SlotState, slot.current_state = S →
        (runUpdates cfg slot ins).2 = List.replicate ins.length none ∧
        (runUpdates cfg slot ins).1.current_state = S := by
  intro ins
  induction ins with
  | nil =>
    intro _ slot hcur
    exact ⟨rfl, hcur⟩
  | cons i rest ih =>
    intro hins slot hcur
    have hstep : update_slot_state cfg slot i.new_state i.confidence
        i.ts_utc i.now =
        ({ slot with
           pending_state := none
           pending_since := none
           confidence := i.confidence }, none) := by
      apply update_settled
      rw [hins i (List.mem_cons_self i rest), hcur]
      exact applyHysteresis_id cfg S i.confidence hS
    have ihres := ih (fun j hj => hins j (List.mem_cons_of_mem i hj))
      ({ slot with
         pending_state := none
         pending_since := none
         confidence := i.confidence }) hcur
    rw [runUpdates_cons, hstep]
    dsimp only
    rw [List.length_cons, List.replicate_succ]
    exact ⟨congrArg (List.cons none) ihres.1, ihres.2⟩

/-- Inside an already-started debounce window towards `S` (pending since
`t0`), the per-call outcome is fully determined: `none` while the elapsed
time stays below `debounce_seconds`, the single confirmation event at the
first call at or past the window, `none` afterwards; and once some call
reaches the window, the final state is `S`. -/
theorem runUpdates_window (cfg : OccConfig) (C S : String) (t0 : ℚ)
    (hS : S = "occupied" ∨ S = "free") (hSC : S ≠ C) :
    ∀ ins : List UpdateIn,
      (∀ i ∈ ins, i.new_state = S ∧
        applyHysteresis cfg C S i.confidence = S) →
      ∀ slot : SlotState, slot.current_state = C →
        slot.pending_state = some S → slot.pending_since = some t0 →
        (∀ k, k < ins.length →
          ((runUpdates cfg slot ins).2).getD k none =
            (if cfg.debounce_seconds ≤ (ins.getD k default).now - t0 ∧
                (∀ j, j < k →
                  (ins.getD j default).now - t0 < cfg.debounce_seconds)
             then some (confirmEvent cfg slot S (ins.getD k default))
             else none)) ∧
        ((∃ i ∈ ins, cfg.debounce_seconds ≤ i.now - t0) →
          (runUpdates cfg slot ins).1.current_state = S) := by
  intro ins
  induction ins with
  | nil =>
    intro _ slot _ _ _
    refine ⟨fun k hk => absurd hk (by simp), ?_⟩
    rintro ⟨i, hi, -⟩
    exact absurd hi (List.not_mem_nil i)
  | cons i rest ih =>
    intro hins slot hcur hpend hsince
    obtain ⟨hiS, higate⟩ := hins i (List.mem_cons_self i rest)
    have hgate2 : applyHysteresis cfg slot.current_state i.new_state
        i.confidence = S := by
      rw [hiS, hcur]
      exact higate
    have hne2 : S ≠ slot.current_state := by
      rw [hcur]
      exact hSC
    by_cases htrig : cfg.debounce_seconds ≤ i.now - t0
    · have hstep := update_confirm cfg slot i.new_state i.confidence i.ts_utc
        i.now S t0 hgate2 hne2 hpend hsince htrig
      have hsettled := runUpdates_settled cfg S hS rest
        (fun j hj => (hins j (List.mem_cons_of_mem i hj)).1)
        ({ slot with
           current_state := S
           last_change := i.now
           dwell_start := i.now
           pending_state := none
           pending_since := none }) rfl
      constructor
      · intro k hk
        rw [runUpdates_cons, hstep]
        dsimp only
        cases k with
        | zero =>
          rw [List.getD_cons_zero, List.getD_cons_zero,
            if_pos ⟨htrig, fun j hj => absurd hj (Nat.not_lt_zero j)⟩]
          rfl
        | succ k2 =>
          rw [List.getD_cons_succ, hsettled.1, getD_replicate_none, if_neg]
          rintro ⟨-, hall⟩
          exact absurd (hall 0 (Nat.succ_pos k2)) (not_lt.2 htrig)
      · intro _
        rw [runUpdates_cons, hstep]
        dsimp only
        exact hsettled.2
    · have hstep := update_wait cfg slot i.new_state i.confidence i.ts_utc
        i.now S t0 hgate2 hne2 hpend hsince htrig
      have ihres := ih (fun j hj => hins j (List.mem_cons_of_mem i hj))
        slot hcur hpend hsince
      constructor
      · intro k hk
        rw [runUpdates_cons, hstep]
        dsimp only
        cases k with
        | zero =>
          rw [List.getD_cons_zero, List.getD_cons_zero, if_neg]
          rintro ⟨h1, -⟩
          exact htrig h1
        | succ k2 =>
          have hk2 : k2 < rest.length := Nat.lt_of_succ_lt_succ hk
          rw [List.getD_cons_succ, ihres.1 k2 hk2]
          simp only [List.getD_cons_succ]
          have hiff : (∀ j, j < k2 →
              (rest.getD j default).now - t0 < cfg.debounce_seconds) ↔
              (∀ j, j < k2 + 1 →
                ((i :: rest).getD j default).now - t0 <
                  cfg.debounce_seconds) := by
            constructor
            · intro h j hj
              cases j with
              | zero =>
                rw [List.getD_cons_zero]
                exact lt_of_not_le htrig
              | succ j2 =>
                rw [List.getD_cons_succ]
                exact h j2 (Nat.lt_of_succ_lt_succ hj)
            · intro h j hj
              have := h (j + 1) (Nat.succ_lt_succ hj)
              rw [List.getD_cons_succ] at this
              exact this
          exact if_congr (and_congr Iff.rfl hiff) rfl rfl
      · rintro ⟨iex, hiex, hge⟩
        rw [runUpdates_cons, hstep]
        dsimp only
        rcases List.mem_cons.1 hiex with rfl | hmem
        · exact absurd hge htrig
        · exact ihres.2 ⟨iex, hmem, hge⟩

/-- Full debounce trace from the first disagreeing call: call 0 starts the
window; each later call is `none` below the window and the unique
confirmation at the first call at or past it; once confirmed the slot has
adopted `S`. -/
theorem runUpdates_debounce_trace (cfg : OccConfig) (slot : SlotState)
    (S : String) (i0 : UpdateIn) (rest : List UpdateIn)
    (hD : 0 < cfg.debounce_seconds)
    (hS : S = "occupied" ∨ S = "free")
    (hne : S ≠ slot.current_state)
    (hpend : slot.pending_state ≠ some S)
    (hobs : ∀ i ∈ i0 :: rest, i.new_state = S ∧
      applyHysteresis cfg slot.current_state S i.confidence = S) :
    (∀ k, k < (i0 :: rest).length →
      ((runUpdates cfg slot (i0 :: rest)).2).getD k none =
        (if cfg.debounce_seconds ≤ ((i0 :: rest).getD k default).now - i0.now ∧
            (∀ j, j < k → ((i0 :: rest).getD j default).now - i0.now <
              cfg.debounce_seconds)
         then some (confirmEvent cfg slot S ((i0 :: rest).getD k default))
         else none)) ∧
    ((∃ i ∈ i0 :: rest, cfg.debounce_seconds ≤ i.now - i0.now) →
      (runUpdates cfg slot (i0 :: rest)).1.current_state = S) := by
  obtain ⟨h0S, h0gate⟩ := hobs i0 (List.mem_cons_self i0 rest)
  have hgate2 : applyHysteresis cfg slot.current_state i0.new_state
      i0.confidence = S := by
    rw [h0S]
    exact h0gate
  have hstart := update_start cfg slot i0.new_state i0.confidence i0.ts_utc
    i0.now S hgate2 hne hpend
  have hwin := runUpdates_window cfg slot.current_state S i0.now hS hne rest
    (fun j hj => hobs j (List.mem_cons_of_mem i0 hj))
    ({ slot with
       pending_state := some S
       pending_since := some i0.now
       confidence := i0.confidence }) rfl rfl rfl
  constructor
  · intro k hk
    cases k with
    | zero =>
      rw [runUpdates_cons, hstart]
      dsimp only
      rw [List.getD_cons_zero, List.getD_cons_zero, sub_self, if_neg]
      rintro ⟨h1, -⟩
      exact absurd h1 (not_le.2 hD)
    | succ k2 =>
      have hk2 : k2 < rest.length := Nat.lt_of_succ_lt_succ hk
      rw [runUpdates_cons, hstart]
      dsimp only
      rw [List.getD_cons_succ, hwin.1 k2 hk2]
      simp only [List.getD_cons_succ]
      have hiff : (∀ j, j < k2 →
          (rest.getD j default).now - i0.now < cfg.debounce_seconds) ↔
          (∀ j, j < k2 + 1 →
            ((i0 :: rest).getD j default).now - i0.now <
              cfg.debounce_seconds) := by
        constructor
        · intro h j hj
          cases j with
          | zero =>
            rw [List.getD_cons_zero, sub_self]
            exact hD
          | succ j2 =>
            rw [List.getD_cons_succ]
            exact h j2 (Nat.lt_of_succ_lt_succ hj)
        · intro h j hj
          have := h (j + 1) (Nat.succ_lt_succ hj)
          rw [List.getD_cons_succ] at this
          exact this
      exact if_congr (and_congr Iff.rfl hiff) rfl rfl
  · rintro ⟨iex, hiex, hge⟩
    rw [runUpdates_cons, hstart]
    dsimp only
    rcases List.mem_cons.1 hiex with rfl | hmem
    · rw [sub_self] at hge
      exact absurd hge (not_le.2 hD)
    · exact hwin.2 ⟨iex, hmem, hge⟩

/-! ## Claim C1 -/

/-- C1 (debounce): take a slot and an observed state `S` that differs from its
current state and passes the hysteresis gate at every call, with the
disagreement beginning at call `i0` (the pending state is not already `S`).
Then the outcome of every call in a continuous presentation of `S` is fully
determined: `none` at every call strictly earlier than `debounce_seconds`
after `i0.now`, the single confirmation event exactly at the first call at or
beyond the window, and `none` at every later call — exactly one event,
however many calls fall inside the window. -/
theorem debounce_produces_exactly_one_event (cfg : OccConfig)
    (slot : SlotState) (S : String) (i0 : UpdateIn) (rest : List UpdateIn)
    (hD : 0 < cfg.debounce_seconds)
    (hS : S = "occupied" ∨ S = "free")
    (hne : S ≠ slot.current_state)
    (hpend : slot.pending_state ≠ some S)
    (hobs : ∀ i ∈ i0 :: rest, i.new_state = S ∧
      applyHysteresis cfg slot.current_state S i.confidence = S) :
    ∀ k, k < (i0 :: rest).length →
      ((runUpdates cfg slot (i0 :: rest)).2).getD k none =
        (if cfg.debounce_seconds ≤ ((i0 :: rest).getD k default).now - i0.now ∧
            (∀ j, j < k → ((i0 :: rest).getD j default).now - i0.now <
              cfg.debounce_seconds)
         then some (confirmEvent cfg slot S ((i0 :: rest).getD k default))
         else none) :=
  (runUpdates_debounce_trace cfg slot S i0 rest hD hS hne hpend hobs).1

def c1cfg : OccConfig := ⟨3, mkRat 3 5, mkRat 2 5, "v1"⟩

def c1slot : SlotState :=
  { slot_id := "A", polygon := [(0, 0), (4, 0), (4, 4), (0, 4)],
    current_state := "free", confidence := 1 }

def c1in (ts : String) (t : ℚ) : UpdateIn := ⟨"occupied", mkRat 9 10, ts, t⟩

/-- C1 witness: with `debounce_seconds = 3` and calls at times 0, 1, 2, 3, 4
presenting "occupied" at confidence 9/10 against a free slot, calls at times
1 and 2 emit nothing, the call at time 3 emits the single confirmation event,
and the call at time 4 emits nothing. -/
theorem debounce_produces_exactly_one_event_witness :
    ((runUpdates c1cfg c1slot
        [c1in "t0" 0, c1in "t1" 1, c1in "t2" 2, c1in "t3" 3,
         c1in "t4" 4]).2).getD 3 none =
      some { slot_id := "A", state := "occupied", previous_state := "free",
             confidence := mkRat 9 10, ts_utc := "t3", dwell_s := 3,
             roi_version := "v1" } ∧
    ((runUpdates c1cfg c1slot
        [c1in "t0" 0, c1in "t1" 1, c1in "t2" 2, c1in "t3" 3,
         c1in "t4" 4]).2).getD 2 none = none ∧
    ((runUpdates c1cfg c1slot
        [c1in "t0" 0, c1in "t1" 1, c1in "t2" 2, c1in "t3" 3,
         c1in "t4" 4]).2).getD 4 none = none := by
  have h := debounce_produces_exactly_one_event c1cfg c1slot "occupied"
    (c1in "t0" 0) [c1in "t1" 1, c1in "t2" 2, c1in "t3" 3, c1in "t4" 4]
    (by with_unfolding_all decide) (Or.inl rfl)
    (by with_unfolding_all decide) (by with_unfolding_all decide)
    (by with_unfolding_all decide)
  exact ⟨(h 3 (by decide)).trans (by with_unfolding_all decide),
    (h 2 (by decide)).trans (by with_unfolding_all decide),
    (h 4 (by decide)).trans (by with_unfolding_all decide)⟩

/-! ## Claim C5 -/

/-- C5 (initial-state bypass): on a slot whose `current_state` is "unknown"
no confidence threshold gate applies — `applyHysteresis` is the identity for
any observed state and confidence, whatever `enter_threshold` and
`exit_threshold` are — so any observed state enters the debounce step
directly; the per-call outcomes then follow the debounce trace, the single
confirmation event carries `previous_state = "unknown"`, and once some call
reaches the window the slot adopts the observed state. -/
theorem unknown_initial_bypass (cfg : OccConfig) (slot : SlotState)
    (S : String) (i0 : UpdateIn) (rest : List UpdateIn)
    (hD : 0 < cfg.debounce_seconds)
    (hS : S = "occupied" ∨ S = "free")
    (hcur : slot.current_state = "unknown")
    (hpend : slot.pending_state ≠ some S)
    (hobs : ∀ i ∈ i0 :: rest, i.new_state = S) :
    (∀ s c, applyHysteresis cfg "unknown" s c = s) ∧
    (∀ i : UpdateIn, (confirmEvent cfg slot S i).previous_state = "unknown") ∧
    (∀ k, k < (i0 :: rest).length →
      ((runUpdates cfg slot (i0 :: rest)).2).getD k none =
        (if cfg.debounce_seconds ≤ ((i0 :: rest).getD k default).now - i0.now ∧
            (∀ j, j < k → ((i0 :: rest).getD j default).now - i0.now <
              cfg.debounce_seconds)
         then some (confirmEvent cfg slot S ((i0 :: rest).getD k default))
         else none)) ∧
    ((∃ i ∈ i0 :: rest, cfg.debounce_seconds ≤ i.now - i0.now) →
      (runUpdates cfg slot (i0 :: rest)).1.current_state = S) := by
  have hne : S ≠ slot.current_state := by
    rw [hcur]
    rcases hS with h | h <;> subst h <;> decide
  have htrace := runUpdates_debounce_trace cfg slot S i0 rest hD hS hne hpend
    (fun i hi => ⟨hobs i hi, by
      rw [hcur]
      exact applyHysteresis_of_unknown cfg S i.confidence⟩)
  exact ⟨fun s c => applyHysteresis_of_unknown cfg s c, fun _ => hcur,
    htrace.1, htrace.2⟩

def c5cfg : OccConfig := ⟨2, 2, 2, "v1"⟩

def c5slot : SlotState :=
  { slot_id := "B", polygon := [(0, 0), (4, 0), (4, 4), (0, 4)] }

def c5in (ts : String) (t : ℚ) : UpdateIn := ⟨"occupied", mkRat 1 10, ts, t⟩

/-- C5 witness: with both thresholds set to 2 (unreachable by any confidence
in [0,1]) and observations at confidence 1/10, a slot starting "unknown"
still confirms "occupied" at the first call 2 seconds in, with
`previous_state = "unknown"`, and adopts the state. -/
theorem unknown_initial_bypass_witness :
    ((runUpdates c5cfg c5slot
        [c5in "t0" 0, c5in "t1" 1, c5in "t2" 2]).2).getD 2 none =
      some { slot_id := "B", state := "occupied",
             previous_state := "unknown", confidence := mkRat 1 10,
             ts_utc := "t2", dwell_s := 2, roi_version := "v1" } ∧
    (runUpdates c5cfg c5slot
        [c5in "t0" 0, c5in "t1" 1, c5in "t2" 2]).1.current_state =
      "occupied" := by
  have h := unknown_initial_bypass c5cfg c5slot "occupied"
    (c5in "t0" 0) [c5in "t1" 1, c5in "t2" 2]
    (by with_unfolding_all decide) (Or.inl rfl) rfl
    (by with_unfolding_all decide) (by with_unfolding_all decide)
  exact ⟨(h.2.2.1 2 (by decide)).trans (by with_unfolding_all decide),
    h.2.2.2 ⟨c5in "t2" 2, by with_unfolding_all decide,
      by with_unfolding_all decide⟩⟩

end SmartPark
